import Mathlib

/-!
Verification of the dashboard aggregation layer of the finance-dashboard
repository.  The definitions below are shallow embeddings of the
computations in frontend/src/components/Dashboard.tsx: JS numbers are
modelled as rationals, JS objects as association lists in insertion
order, and the stable Array.prototype.sort (stability is guaranteed by
ECMAScript 2019) as a stable insertion sort on the comparator's key.
-/

namespace FinDash

/-- One entry of the analysis result list consumed by the dashboard
(fields of the JSON ScoreResult that the dashboard reads). -/
structure ScoreResult where
  case_id : String
  percentage : ℚ
  eligibility_status : String
  individual_scores : List (String × ℚ)
  deriving DecidableEq, Repr

/-- A raw metric value of a case record: a number or a string. -/
inductive RawValue where
  | num (q : ℚ)
  | str (s : String)
  deriving DecidableEq, Repr

/-- One entry of a criterion's scoring_intervals array, with the fields
the dashboard display code reads. -/
structure ScoringInterval where
  range : Option String
  condition : Option String
  interval : Option String
  score : ℚ
  deriving DecidableEq, Repr

/-! ## Score distribution (getScoreDistributionData) -/

/-- The bin index chosen by the if-chain of getScoreDistributionData. -/
def codeBin (p : ℚ) : ℕ :=
  if p ≤ 20 then 0
  else if p ≤ 40 then 1
  else if p ≤ 60 then 2
  else if p ≤ 80 then 3
  else 4

/-- One step of the forEach loop of getScoreDistributionData: increment
the bin that the percentage falls into. -/
def distStep (d : ℕ × ℕ × ℕ × ℕ × ℕ) (r : ScoreResult) : ℕ × ℕ × ℕ × ℕ × ℕ :=
  if r.percentage ≤ 20 then (d.1 + 1, d.2.1, d.2.2.1, d.2.2.2.1, d.2.2.2.2)
  else if r.percentage ≤ 40 then (d.1, d.2.1 + 1, d.2.2.1, d.2.2.2.1, d.2.2.2.2)
  else if r.percentage ≤ 60 then (d.1, d.2.1, d.2.2.1 + 1, d.2.2.2.1, d.2.2.2.2)
  else if r.percentage ≤ 80 then (d.1, d.2.1, d.2.2.1, d.2.2.2.1 + 1, d.2.2.2.2)
  else (d.1, d.2.1, d.2.2.1, d.2.2.2.1, d.2.2.2.2 + 1)

/-- getScoreDistributionData: the five bin counters of the doughnut
chart, filled by one pass over the results. -/
def getScoreDistributionData (results : List ScoreResult) : ℕ × ℕ × ℕ × ℕ × ℕ :=
  results.foldl distStep (0, 0, 0, 0, 0)

/-- Sum of the five bin counters. -/
def distSum (d : ℕ × ℕ × ℕ × ℕ × ℕ) : ℕ :=
  d.1 + d.2.1 + d.2.2.1 + d.2.2.2.1 + d.2.2.2.2

/-- The five bins named by the specification, as half-open intervals
with the first bin closed at 0. -/
def claimBin (i : ℕ) (p : ℚ) : Bool :=
  if i = 0 then decide (0 ≤ p ∧ p ≤ 20)
  else if i = 1 then decide (20 < p ∧ p ≤ 40)
  else if i = 2 then decide (40 < p ∧ p ≤ 60)
  else if i = 3 then decide (60 < p ∧ p ≤ 80)
  else if i = 4 then decide (80 < p ∧ p ≤ 100)
  else false

lemma distSum_distStep (d : ℕ × ℕ × ℕ × ℕ × ℕ) (r : ScoreResult) :
    distSum (distStep d r) = distSum d + 1 := by
  unfold distStep distSum
  repeat' split
  all_goals simp_arith

lemma distSum_foldl (rs : List ScoreResult) :
    ∀ d, distSum (rs.foldl distStep d) = distSum d + rs.length := by
  induction rs with
  | nil => intro d; simp
  | cons r t ih =>
    intro d
    simp only [List.foldl_cons, ih, distSum_distStep, List.length_cons]
    omega

/-! ## Average score (avgScore) -/

/-- avgScore: mean percentage, computed as in the component with a
reduce over the results guarded by a length check. -/
def avgScore (rs : List ScoreResult) : ℚ :=
  if 0 < rs.length then
    (rs.foldl (fun s r => s + r.percentage) 0) / (rs.length : ℚ)
  else 0

lemma foldl_add_eq_sum (f : ScoreResult → ℚ) (rs : List ScoreResult) :
    ∀ c : ℚ, rs.foldl (fun s r => s + f r) c = c + (rs.map f).sum := by
  induction rs with
  | nil => intro c; simp
  | cons r t ih =>
    intro c
    simp only [List.foldl_cons, ih, List.map_cons, List.sum_cons]
    ring

/-- C6: average_score equals the arithmetic mean of the percentage
values (division by zero cannot occur: the empty case is defined to 0,
which also agrees with rational division by zero). -/
theorem avg_score_is_mean :
    (∀ rs : List ScoreResult,
      avgScore rs = ((rs.map (fun r => r.percentage)).sum) / (rs.length : ℚ)) ∧
    avgScore [] = 0 := by
  constructor
  · intro rs
    cases rs with
    | nil => simp [avgScore]
    | cons r t =>
      simp only [avgScore, List.length_cons]
      rw [if_pos (by omega)]
      rw [foldl_add_eq_sum]
      simp
  · rfl

/-- C1: the score distribution assigns each percentage in [0,100] to
exactly one of the five bins of the specification, the bin chosen by
the code, and the five counters sum to the number of results. -/
theorem score_distribution_partition (rs : List ScoreResult)
    (hp : ∀ r ∈ rs, 0 ≤ r.percentage ∧ r.percentage ≤ 100) :
    distSum (getScoreDistributionData rs) = rs.length ∧
    ∀ r ∈ rs,
      claimBin (codeBin r.percentage) r.percentage = true ∧
      ∀ i : ℕ, claimBin i r.percentage = true → i = codeBin r.percentage := by
  constructor
  · unfold getScoreDistributionData
    rw [distSum_foldl]
    simp [distSum]
  · intro r hr
    obtain ⟨h0, h100⟩ := hp r hr
    set p := r.percentage with hpdef
    constructor
    · unfold codeBin
      split_ifs with c1 c2 c3 c4
      · simp only [claimBin]
        norm_num
        exact ⟨h0, c1⟩
      · simp only [claimBin]
        norm_num
        exact ⟨not_le.mp c1, c2⟩
      · simp only [claimBin]
        norm_num
        exact ⟨not_le.mp c2, c3⟩
      · simp only [claimBin]
        norm_num
        exact ⟨not_le.mp c3, c4⟩
      · simp only [claimBin]
        norm_num
        exact ⟨not_le.mp c4, h100⟩
    · intro i hi
      unfold claimBin at hi
      unfold codeBin
      split_ifs at hi with i0 i1 i2 i3 i4
      all_goals simp only [decide_eq_true_eq] at hi
      · subst i0
        split_ifs with c1 c2 c3 c4 <;> (try rfl) <;> linarith [hi.2]
      · subst i1
        split_ifs with c1 c2 c3 c4 <;> (try rfl) <;> linarith [hi.1, hi.2]
      · subst i2
        split_ifs with c1 c2 c3 c4 <;> (try rfl) <;> linarith [hi.1, hi.2]
      · subst i3
        split_ifs with c1 c2 c3 c4 <;> (try rfl) <;> linarith [hi.1, hi.2]
      · subst i4
        split_ifs with c1 c2 c3 c4 <;> (try rfl) <;> linarith [hi.1]

/-- Witness for C1 at a concrete one-element result list. -/
theorem score_distribution_partition_witness :
    distSum (getScoreDistributionData [⟨"A", 50, "Eligible", []⟩]) = 1 :=
  (score_distribution_partition [⟨"A", 50, "Eligible", []⟩] (by decide)).1

/-! ## Stable sort on a rational key

Array.prototype.sort with the comparator (a, b) => key b - key a is a
stable descending sort on the key (stability is part of ECMAScript
since 2019).  It is modelled by a stable insertion sort: an element is
inserted behind every earlier element whose key is at least as large. -/

/-- Insert x behind all elements with a key at least key x. -/
def insertDescBy {α : Type} (key : α → ℚ) (x : α) : List α → List α
  | [] => [x]
  | y :: ys => if key y ≤ key x then x :: y :: ys else y :: insertDescBy key x ys

/-- Stable descending sort by a rational key. -/
def sortDescBy {α : Type} (key : α → ℚ) : List α → List α
  | [] => []
  | x :: xs => insertDescBy key x (sortDescBy key xs)

lemma length_insertDescBy {α : Type} (key : α → ℚ) (x : α) (l : List α) :
    (insertDescBy key x l).length = l.length + 1 := by
  induction l with
  | nil => rfl
  | cons y ys ih =>
    unfold insertDescBy
    split
    · simp
    · simp [ih]

lemma length_sortDescBy {α : Type} (key : α → ℚ) (l : List α) :
    (sortDescBy key l).length = l.length := by
  induction l with
  | nil => rfl
  | cons x xs ih => simp [sortDescBy, length_insertDescBy, ih]

lemma perm_insertDescBy {α : Type} (key : α → ℚ) (x : α) (l : List α) :
    List.Perm (insertDescBy key x l) (x :: l) := by
  induction l with
  | nil => rfl
  | cons y ys ih =>
    unfold insertDescBy
    split
    · rfl
    · exact ((ih.cons y).trans (List.Perm.swap x y ys))

lemma perm_sortDescBy {α : Type} (key : α → ℚ) (l : List α) :
    List.Perm (sortDescBy key l) l := by
  induction l with
  | nil => rfl
  | cons x xs ih =>
    exact (perm_insertDescBy key x (sortDescBy key xs)).trans (ih.cons x)

lemma mem_insertDescBy {α : Type} {key : α → ℚ} {x z : α} {l : List α}
    (hz : z ∈ insertDescBy key x l) : z = x ∨ z ∈ l := by
  have := (perm_insertDescBy key x l).mem_iff.mp hz
  simpa using this

lemma pairwise_insertDescBy {α : Type} {key : α → ℚ} {x : α} {l : List α}
    (h : l.Pairwise (fun a b => key b ≤ key a)) :
    (insertDescBy key x l).Pairwise (fun a b => key b ≤ key a) := by
  induction l with
  | nil => simp [insertDescBy]
  | cons y ys ih =>
    unfold insertDescBy
    split
    · rename_i hyx
      refine List.Pairwise.cons ?_ h
      intro z hz
      rcases List.mem_cons.mp hz with rfl | hz
      · exact hyx
      · exact le_trans (List.rel_of_pairwise_cons h hz) hyx
    · rename_i hyx
      refine List.Pairwise.cons ?_ (ih h.of_cons)
      intro z hz
      rcases mem_insertDescBy hz with rfl | hz
      · exact le_of_lt (not_le.mp hyx)
      · exact List.rel_of_pairwise_cons h hz

lemma pairwise_sortDescBy {α : Type} (key : α → ℚ) (l : List α) :
    (sortDescBy key l).Pairwise (fun a b => key b ≤ key a) := by
  induction l with
  | nil => simp [sortDescBy]
  | cons x xs ih => exact pairwise_insertDescBy ih

lemma filter_insertDescBy_eq {α : Type} {key : α → ℚ} {x : α} {q : ℚ}
    (hx : key x = q) (l : List α) :
    (insertDescBy key x l).filter (fun a => decide (key a = q)) =
      x :: l.filter (fun a => decide (key a = q)) := by
  induction l with
  | nil => simp [insertDescBy, hx]
  | cons y ys ih =>
    unfold insertDescBy
    split
    · simp [List.filter_cons, hx]
    · rename_i hyx
      have hy : ¬ key y = q := by
        intro hyq
        exact hyx (by rw [hyq, hx])
      simp [List.filter_cons, hy, ih]

lemma filter_insertDescBy_ne {α : Type} {key : α → ℚ} {x : α} {q : ℚ}
    (hx : ¬ key x = q) (l : List α) :
    (insertDescBy key x l).filter (fun a => decide (key a = q)) =
      l.filter (fun a => decide (key a = q)) := by
  induction l with
  | nil => simp [insertDescBy, hx]
  | cons y ys ih =>
    unfold insertDescBy
    split
    · simp [List.filter_cons, hx]
    · simp [List.filter_cons, ih]

lemma filter_sortDescBy {α : Type} (key : α → ℚ) (q : ℚ) (l : List α) :
    (sortDescBy key l).filter (fun a => decide (key a = q)) =
      l.filter (fun a => decide (key a = q)) := by
  induction l with
  | nil => rfl
  | cons x xs ih =>
    by_cases hx : key x = q
    · simp only [sortDescBy, filter_insertDescBy_eq hx, ih, List.filter_cons, hx]
      simp
    · simp only [sortDescBy, filter_insertDescBy_ne hx, ih, List.filter_cons]
      simp [hx]

lemma sortDescBy_of_const {α : Type} {key : α → ℚ} {c : ℚ} :
    ∀ {l : List α}, (∀ a ∈ l, key a = c) → sortDescBy key l = l := by
  intro l
  induction l with
  | nil => intro; rfl
  | cons x xs ih =>
    intro h
    have hxs : sortDescBy key xs = xs := ih (fun a ha => h a (List.mem_cons_of_mem x ha))
    simp only [sortDescBy, hxs]
    cases xs with
    | nil => rfl
    | cons y ys =>
      unfold insertDescBy
      rw [if_pos]
      rw [h y (by simp), h x (by simp)]

/-! ## Top performers -/

/-- The Top Performing Cases view: results sorted descending by
percentage and truncated to five entries. -/
def topPerformers (rs : List ScoreResult) : List ScoreResult :=
  (sortDescBy (fun r => r.percentage) rs).take 5

/-- The same view together with the post-call state of the results
array: Array.prototype.sort reorders the array in place, so after the
render the array holds the sorted order. -/
def renderTopPerformers (rs : List ScoreResult) :
    List ScoreResult × List ScoreResult :=
  ((sortDescBy (fun r => r.percentage) rs).take 5,
    sortDescBy (fun r => r.percentage) rs)

/-- C2: top performers are the results in stable descending percentage
order (a permutation of the results, pairwise descending, with every
percentage class kept in original order) truncated to five, so the
length is min 5 total_cases. -/
theorem top_performers_spec (rs : List ScoreResult) :
    (topPerformers rs).length = min 5 rs.length ∧
    (topPerformers rs).Pairwise (fun a b => b.percentage ≤ a.percentage) ∧
    List.Perm (sortDescBy (fun r => r.percentage) rs) rs ∧
    ∀ q : ℚ,
      (sortDescBy (fun r => r.percentage) rs).filter
          (fun r => decide (r.percentage = q)) =
        rs.filter (fun r => decide (r.percentage = q)) := by
  refine ⟨?_, ?_, perm_sortDescBy _ rs, fun q => filter_sortDescBy _ q rs⟩
  · simp [topPerformers, List.length_take, length_sortDescBy]
  · exact List.Pairwise.sublist (List.take_sublist 5 _)
      (pairwise_sortDescBy (fun r => r.percentage) rs)

/-- C3: the top-performers computation is not a pure reader of the
results list: the in-place sort leaves the input array reordered.
Evaluated at a two-element list given in ascending percentage order. -/
theorem top_performers_mutates_input :
    (renderTopPerformers
        [⟨"A", 10, "Not Eligible", []⟩, ⟨"B", 90, "Eligible", []⟩]).2 ≠
      [⟨"A", 10, "Not Eligible", []⟩, ⟨"B", 90, "Eligible", []⟩] := by
  decide

/-! ## Metric resolution (getComparisonData fallback chain) -/

/-- Whether the first character list starts with the second. -/
def startsWithChars : List Char → List Char → Bool
  | _, [] => true
  | [], _ :: _ => false
  | a :: s, b :: t => a == b && startsWithChars s t

/-- Whether the second character list has the first as a contiguous
part, as the JavaScript String.prototype.includes test. -/
def containsChars (sub : List Char) : List Char → Bool
  | [] => startsWithChars [] sub
  | a :: t => startsWithChars (a :: t) sub || containsChars sub t

/-- The characters of a string after toLowerCase. -/
def lowerChars (s : String) : List Char := s.data.map Char.toLower

/-- The value-resolution chain of getComparisonData: direct key access,
then a first-hit scan with case-insensitive equality, then a first-hit
scan with substring containment in either direction. -/
def resolveMetric (metrics : List (String × RawValue)) (p : String) :
    Option RawValue :=
  match metrics.find? (fun kv => decide (kv.1 = p)) with
  | some kv => some kv.2
  | none =>
    match metrics.find? (fun kv => decide (lowerChars kv.1 = lowerChars p)) with
    | some kv => some kv.2
    | none =>
      (metrics.find? (fun kv =>
        containsChars (lowerChars p) (lowerChars kv.1) ||
        containsChars (lowerChars kv.1) (lowerChars p))).map (fun kv => kv.2)

/-- Modelled from the claim text: the precedence written as three
filters over the metrics in insertion order, each taking its first
hit, with the first nonempty stage winning. -/
def resolveMetricSpec (metrics : List (String × RawValue)) (p : String) :
    Option RawValue :=
  match (metrics.filter (fun kv => decide (kv.1 = p))).head? with
  | some kv => some kv.2
  | none =>
    match (metrics.filter
        (fun kv => decide (lowerChars kv.1 = lowerChars p))).head? with
    | some kv => some kv.2
    | none =>
      ((metrics.filter (fun kv =>
        containsChars (lowerChars p) (lowerChars kv.1) ||
        containsChars (lowerChars kv.1) (lowerChars p))).head?).map
          (fun kv => kv.2)

lemma find_eq_head_filter {α : Type} (p : α → Bool) (l : List α) :
    l.find? p = (l.filter p).head? := by
  induction l with
  | nil => rfl
  | cons a t ih =>
    cases hpa : p a
    · rw [List.find?_cons_of_neg t (by simp [hpa]),
        List.filter_cons_of_neg (by simp [hpa]), ih]
    · rw [List.find?_cons_of_pos t hpa, List.filter_cons_of_pos hpa]
      rfl

/-- C4: value resolution follows the three-stage precedence with the
first success winning, scanning case metrics in insertion order, and
the parameter Annual Revenue resolves against a metric key revenue
through the substring fallback. -/
theorem metric_resolution_precedence :
    (∀ (metrics : List (String × RawValue)) (p : String),
      resolveMetric metrics p = resolveMetricSpec metrics p) ∧
    ∀ v : RawValue, resolveMetric [("revenue", v)] "Annual Revenue" = some v := by
  constructor
  · intro metrics p
    unfold resolveMetric resolveMetricSpec
    rw [find_eq_head_filter, find_eq_head_filter, find_eq_head_filter]
  · intro v
    rfl

/-! ## Ideal interval for display -/

/-- criteriaForComparison: the ideal value is the first interval of
score exactly 10 (the sort by score of intervals that all score 10 is
kept from the source, although it cannot reorder anything); when no
interval scores 10 the display stays at the placeholder, modelled as
none. -/
def idealIntervalComparison (ints : List ScoringInterval) :
    Option ScoringInterval :=
  (sortDescBy (fun i => i.score)
    (ints.filter (fun i => decide (i.score = 10)))).head?

/-- The criteria tab: the first interval of score exactly 10, and when
none scores 10 the reduce that keeps the current best under a strict
comparison, which returns the first interval of maximal score. -/
def idealIntervalTab (ints : List ScoringInterval) : Option ScoringInterval :=
  match ints.find? (fun i => decide (i.score = 10)) with
  | some b => some b
  | none =>
    match ints with
    | [] => none
    | h :: t =>
      some (t.foldl (fun best cur => if best.score < cur.score then cur else best) h)

lemma foldl_best_spec (h : ScoringInterval) (t : List ScoringInterval) :
    (t.foldl (fun best cur => if best.score < cur.score then cur else best) h)
        ∈ h :: t ∧
    ∀ j ∈ h :: t,
      j.score ≤
        (t.foldl (fun best cur => if best.score < cur.score then cur else best)
          h).score := by
  induction t generalizing h with
  | nil =>
    refine ⟨by simp, ?_⟩
    intro j hj
    simp only [List.mem_singleton] at hj
    simp [hj]
  | cons c t ih =>
    have step : (if h.score < c.score then c else h) = c ∨
        (if h.score < c.score then c else h) = h := by
      split
      · exact Or.inl rfl
      · exact Or.inr rfl
    obtain ⟨ihm, ihb⟩ := ih (if h.score < c.score then c else h)
    constructor
    · simp only [List.foldl_cons]
      rcases List.mem_cons.mp ihm with he | ht
      · rw [he]
        rcases step with h1 | h1 <;> rw [h1] <;> simp
      · simp [ht]
    · intro j hj
      simp only [List.foldl_cons]
      have hbest : (if h.score < c.score then c else h).score ≤
          (t.foldl (fun best cur => if best.score < cur.score then cur else best)
            (if h.score < c.score then c else h)).score :=
        ihb _ (List.mem_cons_self _ _)
      rcases List.mem_cons.mp hj with rfl | hj
      · refine le_trans ?_ hbest
        split
        · rename_i hlt
          exact le_of_lt hlt
        · exact le_refl _
      rcases List.mem_cons.mp hj with rfl | hj
      · refine le_trans ?_ hbest
        split
        · exact le_refl _
        · rename_i hlt
          exact not_lt.mp hlt
      · exact ihb j (List.mem_cons_of_mem _ hj)

/-- C5 counterexample: with a single interval of score 8 the comparison
display yields no ideal value instead of the interval with the overall
highest score. -/
theorem ideal_interval_comparison_counterexample :
    idealIntervalComparison [⟨none, none, none, 8⟩] = none ∧
    idealIntervalComparison [⟨none, none, none, 8⟩] ≠
      some ⟨none, none, none, 8⟩ := by
  decide

/-- C5 as amended: in both displays a first interval of score 10 wins;
when none scores 10, the criteria tab falls back to an interval of
maximal score (the comparison display instead shows no ideal value, as
the counterexample records). -/
theorem ideal_interval_spec :
    (∀ ints : List ScoringInterval,
      idealIntervalComparison ints =
        (ints.filter (fun i => decide (i.score = 10))).head?) ∧
    (∀ (ints : List ScoringInterval) (b : ScoringInterval),
      ints.find? (fun i => decide (i.score = 10)) = some b →
        idealIntervalTab ints = some b) ∧
    (∀ (h : ScoringInterval) (t : List ScoringInterval),
      (h :: t).find? (fun i => decide (i.score = 10)) = none →
        ∃ b, idealIntervalTab (h :: t) = some b ∧ b ∈ h :: t ∧
          ∀ j ∈ h :: t, j.score ≤ b.score) := by
  refine ⟨?_, ?_, ?_⟩
  · intro ints
    unfold idealIntervalComparison
    rw [sortDescBy_of_const]
    intro a ha
    have := List.of_mem_filter ha
    simpa using this
  · intro ints b hb
    unfold idealIntervalTab
    rw [hb]
  · intro h t hn
    unfold idealIntervalTab
    rw [hn]
    exact ⟨_, rfl, (foldl_best_spec h t).1, (foldl_best_spec h t).2⟩

/-- Witness for C5 at a concrete two-interval list with no score-10
interval: the tab fallback picks the interval of maximal score. -/
theorem ideal_interval_spec_witness :
    ∃ b, idealIntervalTab [⟨none, none, none, 3⟩, ⟨none, none, none, 8⟩] = some b ∧
      b ∈ [(⟨none, none, none, 3⟩ : ScoringInterval), ⟨none, none, none, 8⟩] ∧
      ∀ j ∈ [(⟨none, none, none, 3⟩ : ScoringInterval), ⟨none, none, none, 8⟩],
        j.score ≤ b.score :=
  ideal_interval_spec.2.2 ⟨none, none, none, 3⟩ [⟨none, none, none, 8⟩] (by decide)

/-! ## Per-parameter views (getRadarData / getCriteriaPerformanceData) -/

/-- The per-case score of one criterion name: the value under the exact
key in individual_scores, or 0 when the key is absent. -/
def lookupScore (r : ScoreResult) (name : String) : ℚ :=
  match r.individual_scores.find? (fun kv => decide (kv.1 = name)) with
  | some kv => kv.2
  | none => 0

/-- getRadarData: for each key of the first result, the mean of that
key's scores over all results; null on an empty result list. -/
def getRadarData (rs : List ScoreResult) : Option (List (String × ℚ)) :=
  match rs with
  | [] => none
  | r :: _ =>
    some ((r.individual_scores.map (fun kv => kv.1)).map (fun n =>
      (n, ((rs.map (fun x => lookupScore x n)).foldl (fun s q => s + q) 0) /
        ((rs.map (fun x => lookupScore x n)).length : ℚ))))

/-- getCriteriaPerformanceData: the case labels together with, for each
key of the first result, that key's scores across all results; null on
an empty result list. -/
def getCriteriaPerformanceData (rs : List ScoreResult) :
    Option (List String × List (String × List ℚ)) :=
  match rs with
  | [] => none
  | r :: _ =>
    some (rs.map (fun x => x.case_id),
      (r.individual_scores.map (fun kv => kv.1)).map (fun n =>
        (n, rs.map (fun x => lookupScore x n))))

lemma foldl_add_rat (l : List ℚ) :
    ∀ c : ℚ, l.foldl (fun s q => s + q) c = c + l.sum := by
  induction l with
  | nil => intro c; simp
  | cons q t ih =>
    intro c
    simp only [List.foldl_cons, ih, List.sum_cons]
    ring

/-- C7: every entry of the radar view is the arithmetic mean over all
cases of that parameter's score, and a case without the parameter in
individual_scores contributes 0. -/
theorem parameter_analysis_is_mean :
    (∀ (rs : List ScoreResult) (d : List (String × ℚ)),
      getRadarData rs = some d →
        ∀ nv ∈ d,
          nv.2 = ((rs.map (fun x => lookupScore x nv.1)).sum) / (rs.length : ℚ)) ∧
    ∀ (r : ScoreResult) (name : String),
      r.individual_scores.find? (fun kv => decide (kv.1 = name)) = none →
        lookupScore r name = 0 := by
  constructor
  · intro rs d hd nv hnv
    cases rs with
    | nil => simp [getRadarData] at hd
    | cons r t =>
      simp only [getRadarData, Option.some.injEq] at hd
      subst hd
      obtain ⟨n, hn, rfl⟩ := List.mem_map.mp hnv
      simp only [foldl_add_rat, zero_add, List.length_map]
  · intro r name hnone
    unfold lookupScore
    rw [hnone]

/-- Witness for C7 at a one-element result list holding one score. -/
theorem parameter_analysis_is_mean_witness :
    (("Revenue", (7 : ℚ)) : String × ℚ).2 =
      (([⟨"A", 50, "Eligible", [("Revenue", 7)]⟩].map
        (fun x => lookupScore x ("Revenue", (7 : ℚ)).1)).sum) /
        (([(⟨"A", 50, "Eligible", [("Revenue", 7)]⟩ : ScoreResult)].length) : ℚ) :=
  parameter_analysis_is_mean.1 [⟨"A", 50, "Eligible", [("Revenue", 7)]⟩]
    [("Revenue", 7)] (by simp [getRadarData, lookupScore]) ("Revenue", 7) (by decide)

/-! ## Criterion weight default (criteriaForComparison) -/

/-- The effective weight shown for a criterion: the JavaScript
expression weight-or-1, which falls back to 1 both when the field is
absent and when the number 0 is present (0 is falsy). -/
def effectiveWeight (w : Option ℚ) : ℚ :=
  match w with
  | none => 1
  | some x => if x = 0 then 1 else x

/-- C8 counterexample: a present weight of 0 is replaced by 1, so an
explicit weight does not always survive as the effective weight. -/
theorem effective_weight_counterexample :
    effectiveWeight (some 0) = 1 ∧ effectiveWeight (some 0) ≠ 0 := by
  constructor
  · rfl
  · intro h
    simp [effectiveWeight] at h

/-- C8 as amended: an absent weight defaults to 1, a present nonzero
weight is kept, and a present weight of exactly 0 also becomes 1. -/
theorem effective_weight_spec :
    effectiveWeight none = 1 ∧
    (∀ x : ℚ, x ≠ 0 → effectiveWeight (some x) = x) ∧
    effectiveWeight (some 0) = 1 := by
  refine ⟨rfl, ?_, rfl⟩
  intro x hx
  simp [effectiveWeight, hx]

/-- Witness for C8 at the nonzero weight 30. -/
theorem effective_weight_spec_witness :
    effectiveWeight (some 30) = 30 :=
  effective_weight_spec.2.1 30 (by norm_num)

/-- C9: the per-parameter views are keyed by exactly the keys of the
first result's individual_scores, both views are null on an empty
result list, and a parameter outside the first result's keys appears
in neither view. -/
theorem views_use_first_result_keys :
    getRadarData ([] : List ScoreResult) = none ∧
    getCriteriaPerformanceData ([] : List ScoreResult) = none ∧
    ∀ (r : ScoreResult) (rest : List ScoreResult),
      (getRadarData (r :: rest)).map (fun d => d.map (fun nv => nv.1)) =
        some (r.individual_scores.map (fun kv => kv.1)) ∧
      (getCriteriaPerformanceData (r :: rest)).map
          (fun c => c.2.map (fun nv => nv.1)) =
        some (r.individual_scores.map (fun kv => kv.1)) ∧
      ∀ p : String, p ∉ r.individual_scores.map (fun kv => kv.1) →
        ∀ d, getRadarData (r :: rest) = some d →
          p ∉ d.map (fun nv => nv.1) := by
  refine ⟨rfl, rfl, ?_⟩
  intro r rest
  refine ⟨?_, ?_, ?_⟩
  · simp [getRadarData, List.map_map, Function.comp]
  · simp [getCriteriaPerformanceData, List.map_map, Function.comp]
  · intro p hp d hd
    simp only [getRadarData, Option.some.injEq] at hd
    subst hd
    simp only [List.map_map, Function.comp]
    simpa using hp

/-- Witness for C9: a parameter absent from the first result's keys is
absent from the radar view computed from that result. -/
theorem views_use_first_result_keys_witness :
    "Margin" ∉
      ([("Revenue", (7 : ℚ))].map (fun nv => nv.1) : List String) :=
  (views_use_first_result_keys.2.2 ⟨"A", 50, "Eligible", [("Revenue", 7)]⟩ []).2.2
    "Margin" (by decide) [("Revenue", 7)] (by simp [getRadarData, lookupScore])

/-! ## Eligibility breakdown (status counts) -/

/-- Number of results analysed (totalCases in the component). -/
def totalCases (rs : List ScoreResult) : ℕ := rs.length

/-- approvedCount: results whose eligibility_status is Eligible. -/
def approvedCount (rs : List ScoreResult) : ℕ :=
  (rs.filter (fun r => decide (r.eligibility_status = "Eligible"))).length

/-- rejectedCount: results whose eligibility_status is Not Eligible. -/
def rejectedCount (rs : List ScoreResult) : ℕ :=
  (rs.filter (fun r => decide (r.eligibility_status = "Not Eligible"))).length

/-- reviewCount: results whose eligibility_status is Review Required. -/
def reviewCount (rs : List ScoreResult) : ℕ :=
  (rs.filter (fun r => decide (r.eligibility_status = "Review Required"))).length

lemma length_filter_cons_pos {α : Type} {p : α → Bool} {r : α} (t : List α)
    (h : p r = true) :
    ((r :: t).filter p).length = (t.filter p).length + 1 := by
  simp [List.filter_cons, h]

lemma length_filter_cons_neg {α : Type} {p : α → Bool} {r : α} (t : List α)
    (h : p r = false) :
    ((r :: t).filter p).length = (t.filter p).length := by
  simp [List.filter_cons, h]

lemma bucket_counts_eq (rs : List ScoreResult) :
    approvedCount rs + reviewCount rs + rejectedCount rs =
      (rs.filter (fun r => decide (r.eligibility_status = "Eligible" ∨
        r.eligibility_status = "Review Required" ∨
        r.eligibility_status = "Not Eligible"))).length := by
  induction rs with
  | nil => rfl
  | cons r t ih =>
    unfold approvedCount reviewCount rejectedCount at ih ⊢
    by_cases h1 : r.eligibility_status = "Eligible"
    · have h2 : ¬ r.eligibility_status = "Review Required" := by rw [h1]; decide
      have h3 : ¬ r.eligibility_status = "Not Eligible" := by rw [h1]; decide
      rw [length_filter_cons_pos t (decide_eq_true h1),
        length_filter_cons_neg t (decide_eq_false h2),
        length_filter_cons_neg t (decide_eq_false h3),
        length_filter_cons_pos t (decide_eq_true (Or.inl h1))]
      omega
    · by_cases h2 : r.eligibility_status = "Review Required"
      · have h3 : ¬ r.eligibility_status = "Not Eligible" := by rw [h2]; decide
        rw [length_filter_cons_neg t (decide_eq_false h1),
          length_filter_cons_pos t (decide_eq_true h2),
          length_filter_cons_neg t (decide_eq_false h3),
          length_filter_cons_pos t (decide_eq_true (Or.inr (Or.inl h2)))]
        omega
      · by_cases h3 : r.eligibility_status = "Not Eligible"
        · rw [length_filter_cons_neg t (decide_eq_false h1),
            length_filter_cons_neg t (decide_eq_false h2),
            length_filter_cons_pos t (decide_eq_true h3),
            length_filter_cons_pos t (decide_eq_true (Or.inr (Or.inr h3)))]
          omega
        · rw [length_filter_cons_neg t (decide_eq_false h1),
            length_filter_cons_neg t (decide_eq_false h2),
            length_filter_cons_neg t (decide_eq_false h3),
            length_filter_cons_neg t (decide_eq_false
              (fun h => h.elim h1 (fun h => h.elim h2 h3)))]
          omega

/-- C10: each result lands in at most one of the three status buckets,
the three bucket counts sum to total_cases exactly when every status is
one of the three expected strings, and a result with any other status
still counts in total_cases and in the average but in no bucket. -/
theorem eligibility_breakdown_buckets (rs : List ScoreResult) :
    approvedCount rs + reviewCount rs + rejectedCount rs ≤ totalCases rs ∧
    (approvedCount rs + reviewCount rs + rejectedCount rs = totalCases rs ↔
      ∀ r ∈ rs, r.eligibility_status = "Eligible" ∨
        r.eligibility_status = "Review Required" ∨
        r.eligibility_status = "Not Eligible") ∧
    (∀ r ∈ rs,
      ¬ (r.eligibility_status = "Eligible" ∨
          r.eligibility_status = "Review Required" ∨
          r.eligibility_status = "Not Eligible") →
        r ∉ rs.filter (fun x => decide (x.eligibility_status = "Eligible")) ∧
        r ∉ rs.filter (fun x => decide (x.eligibility_status = "Review Required")) ∧
        r ∉ rs.filter (fun x => decide (x.eligibility_status = "Not Eligible"))) ∧
    totalCases rs = rs.length ∧
    avgScore rs = ((rs.map (fun r => r.percentage)).sum) / (rs.length : ℚ) := by
  have hsum := bucket_counts_eq rs
  refine ⟨?_, ?_, ?_, rfl, ?_⟩
  · rw [hsum]
    exact List.length_filter_le _ rs
  · rw [hsum]
    constructor
    · intro hlen r hr
      have hfe : rs.filter (fun r => decide (r.eligibility_status = "Eligible" ∨
          r.eligibility_status = "Review Required" ∨
          r.eligibility_status = "Not Eligible")) = rs :=
        List.Sublist.eq_of_length (List.filter_sublist rs) hlen
      have := List.filter_eq_self.mp hfe r hr
      simpa using this
    · intro hall
      have hfe : rs.filter (fun r => decide (r.eligibility_status = "Eligible" ∨
          r.eligibility_status = "Review Required" ∨
          r.eligibility_status = "Not Eligible")) = rs := by
        rw [List.filter_eq_self]
        intro a ha
        simpa using hall a ha
      rw [hfe]
      rfl
  · intro r hr hnot
    push_neg at hnot
    obtain ⟨n1, n2, n3⟩ := hnot
    refine ⟨?_, ?_, ?_⟩ <;>
      · intro hmem
        have := (List.mem_filter.mp hmem).2
        simp only [decide_eq_true_eq] at this
        first | exact n1 this | exact n2 this | exact n3 this
  · cases rs with
    | nil => simp [avgScore]
    | cons r t =>
      simp only [avgScore, List.length_cons]
      rw [if_pos (by omega)]
      rw [foldl_add_eq_sum]
      simp

/-- Witness for C10: a result with an unexpected status string lies in
no bucket of the breakdown. -/
theorem eligibility_breakdown_buckets_witness :
    (⟨"A", 50, "Pending", []⟩ : ScoreResult) ∉
      ([⟨"A", 50, "Pending", []⟩] : List ScoreResult).filter
        (fun x => decide (x.eligibility_status = "Eligible")) :=
  ((eligibility_breakdown_buckets [⟨"A", 50, "Pending", []⟩]).2.2.1
    ⟨"A", 50, "Pending", []⟩ (by decide) (by decide)).1

end FinDash
